import Mathlib

/-!
# Verification of the pircolate IRC message parser and `Message` accessors

A shallow embedding of `src/message/mod.rs` (the `Message` struct, its
range model and accessors) together with the parser submodule and the
typed-matcher contracts, which are declared in `mod.rs` but whose bodies
live outside the provided sources and are therefore modelled from the
specification (sections 4.1, 4.3 and 7 of the design document).

Positions are byte offsets into the original line; since all inputs of
interest are ASCII we index the line's character list, which coincides
with byte indexing on ASCII input.
-/

namespace Pircolate

/-- A half-open index range `[start, stop)` into the message text,
embedding Rust's `Range<usize>`. -/
structure Rng where
  start : Nat
  stop : Nat
deriving DecidableEq, Repr

/-- Embeds struct `PrefixRange` of `mod.rs`: the full raw span of the
message origin section, its name sub-range and optional user/host
sub-ranges. The Rust fields `raw_prefix` and `prefix` are renamed
`rawPfx` and `pfx` here. -/
structure PrefixRange where
  rawPfx : Rng
  pfx : Rng
  user : Option Rng
  host : Option Rng
deriving DecidableEq, Repr

/-- Embeds `type TagRange = (Range<usize>, Option<Range<usize>>)`. -/
abbrev TagRange := Rng × Option Rng

/-- Embeds struct `Message` of `mod.rs`: the owned line plus the range
model. The Rust field `prefix` is renamed `pfx`. -/
structure Message where
  message : String
  tags : Option (List TagRange)
  pfx : Option PrefixRange
  command : Rng
  arguments : Option (List Rng)
deriving DecidableEq, Repr

/-- Modelled from the spec: the parse-error taxonomy of section 7 (the
`error` module is not among the provided sources). -/
inductive ParseError where
  | MissingCommand
  | MalformedTags
  | MalformedPrefix
deriving DecidableEq, Repr

/-- Index of the first character satisfying `p`, or the length of the
list when none does. -/
def findIdx' (p : Char → Bool) : List Char → Nat
  | [] => 0
  | c :: cs => if p c then 0 else findIdx' p cs + 1

/-- Slice a character list by a range (empty when the range is empty or
out of bounds). -/
def sliceL (cs : List Char) (r : Rng) : List Char :=
  (cs.drop r.start).take (r.stop - r.start)

/-- Slice the owned message string by a range. -/
def sliceS (s : String) (r : Rng) : List Char :=
  sliceL s.data r

/-- First position at or after `pos` whose character satisfies `p`
(`cs.length` when none does). -/
def scanTo (cs : List Char) (pos : Nat) (p : Char → Bool) : Nat :=
  pos + findIdx' p (cs.drop pos)

/-- First position at or after `pos` holding a non-space character. -/
def skipSpaces (cs : List Char) (pos : Nat) : Nat :=
  pos + findIdx' (fun c => !(c == ' ')) (cs.drop pos)

/-- Modelled from the spec: length of the tag section, i.e. the offset of
the first unescaped space (a character preceded by a backslash does not
terminate the section), or the whole remaining line when there is none. -/
def scanUnescapedSpace : List Char → Nat
  | [] => 0
  | '\\' :: _ :: rest => 2 + scanUnescapedSpace rest
  | c :: rest => if c = ' ' then 0 else 1 + scanUnescapedSpace rest

/-- Fuelled worker for `splitSemis`: splits the span `l` (which starts at
absolute offset `off`) on `;` into entry ranges relative to the original
line. The fuel only serves Lean's termination checker; `splitSemis`
supplies enough for the recursion to run to completion. -/
def splitSemisF : Nat → List Char → Nat → List Rng
  | 0, l, off => [⟨off, off + l.length⟩]
  | fuel + 1, l, off =>
    let i := findIdx' (fun c => c == ';') l
    if i < l.length then
      ⟨off, off + i⟩ :: splitSemisF fuel (l.drop (i + 1)) (off + i + 1)
    else [⟨off, off + l.length⟩]

/-- Modelled from the spec: split the tag section on `;` into tag-entry
ranges (absolute offsets into the original line). -/
def splitSemis (l : List Char) (off : Nat) : List Rng :=
  splitSemisF l.length l off

/-- Modelled from the spec: split one tag entry on the first `=` into a
key range and an optional value range. No `=` gives an absent value;
an `=` with nothing after it gives a present, empty value range. -/
def splitEq (cs : List Char) (r : Rng) : TagRange :=
  let entry := sliceL cs r
  let i := findIdx' (fun c => c == '=') entry
  if i < entry.length then
    (⟨r.start, r.start + i⟩, some ⟨r.start + i + 1, r.stop⟩)
  else (⟨r.start, r.stop⟩, none)

/-- Modelled from the spec: parse the tag section spanning `[s, e)`,
failing with `MalformedTags` when some entry has an empty key. -/
def parseTags (cs : List Char) (s e : Nat) : Except ParseError (List TagRange) :=
  let trs := (splitSemis (sliceL cs ⟨s, e⟩) s).map (splitEq cs)
  if trs.all (fun t => Nat.blt t.1.start t.1.stop) then .ok trs
  else .error ParseError.MalformedTags

/-- Modelled from the spec: step 1 of the parser. When the line starts
with `@`, scan to the first unescaped space, parse that span as the tag
section and advance past it and any following spaces. -/
def parseTagsStage (cs : List Char) : Except ParseError (Option (List TagRange) × Nat) :=
  if cs.getD 0 ' ' = '@' then
    let tEnd := 1 + scanUnescapedSpace (cs.drop 1)
    match parseTags cs 1 tEnd with
    | .error e => .error e
    | .ok ts => .ok (some ts, skipSpaces cs tEnd)
  else .ok (none, 0)

/-- Modelled from the spec: decompose the origin span `[s, e)` (with the
leading `:` already excluded) at the first `!` into name and user, then
the remainder at the first `@` into user and host. -/
def parsePfx (cs : List Char) (s e : Nat) : PrefixRange :=
  let span := sliceL cs ⟨s, e⟩
  let i := findIdx' (fun c => c == '!') span
  if i < span.length then
    let rs := s + i + 1
    let rest := sliceL cs ⟨rs, e⟩
    let j := findIdx' (fun c => c == '@') rest
    if j < rest.length then
      { rawPfx := ⟨s, e⟩, pfx := ⟨s, s + i⟩, user := some ⟨rs, rs + j⟩,
        host := some ⟨rs + j + 1, e⟩ }
    else
      { rawPfx := ⟨s, e⟩, pfx := ⟨s, s + i⟩, user := some ⟨rs, e⟩, host := none }
  else
    let j := findIdx' (fun c => c == '@') span
    if j < span.length then
      { rawPfx := ⟨s, e⟩, pfx := ⟨s, s + j⟩, user := none, host := some ⟨s + j + 1, e⟩ }
    else
      { rawPfx := ⟨s, e⟩, pfx := ⟨s, e⟩, user := none, host := none }

/-- Modelled from the spec: step 2 of the parser. When the character at
`pos` is `:`, scan to the first following space, decompose that span as
the origin section (failing with `MalformedPrefix` when its name is
empty) and advance past it and any following spaces. -/
def parsePfxStage (cs : List Char) (pos : Nat) :
    Except ParseError (Option PrefixRange × Nat) :=
  if cs.getD pos ' ' = ':' then
    let e := scanTo cs (pos + 1) (fun c => c == ' ')
    let pr := parsePfx cs (pos + 1) e
    if pr.pfx.start < pr.pfx.stop then
      .ok (some pr, skipSpaces cs e)
    else .error ParseError.MalformedPrefix
  else .ok (none, pos)

/-- Fuelled worker for `parseArgs`: skip spaces; a `:` at the cursor makes
the rest of the line (excluding the `:`) the final argument; otherwise the
run up to the next space is one argument. The fuel only serves Lean's
termination checker; `parseArgs` supplies enough to reach the end of the
line. -/
def parseArgsF : Nat → List Char → Nat → List Rng
  | 0, _, _ => []
  | fuel + 1, cs, pos =>
    let p := skipSpaces cs pos
    if p < cs.length then
      if cs.getD p ' ' = ':' then
        [⟨p + 1, cs.length⟩]
      else
        let e := scanTo cs p (fun c => c == ' ')
        ⟨p, e⟩ :: parseArgsF fuel cs e
    else []

/-- Modelled from the spec: step 4 of the parser, scanning the argument
ranges from position `pos` (the end of the command token). -/
def parseArgs (cs : List Char) (pos : Nat) : List Rng :=
  parseArgsF (cs.length + 1 - pos) cs pos

/-- Modelled from the spec: the parser entry point `parser::parse_message`
(section 4.1), a single left-to-right pass producing the range model or a
parse error. A run of non-space characters after the tag and origin
sections is the command token; its absence is `MissingCommand`; when zero
arguments follow, the `arguments` field is `none`. -/
def parse_message (s : String) : Except ParseError Message :=
  let cs := s.data
  match parseTagsStage cs with
  | .error e => .error e
  | .ok (tags, pos1) =>
    match parsePfxStage cs pos1 with
    | .error e => .error e
    | .ok (pfx, pos2) =>
      let cmdEnd := scanTo cs pos2 (fun c => c == ' ')
      if pos2 < cmdEnd then
        let args := parseArgs cs cmdEnd
        .ok { message := s, tags := tags, pfx := pfx,
              command := ⟨pos2, cmdEnd⟩,
              arguments := if args.isEmpty then none else some args }
      else .error ParseError.MissingCommand

/-- Embeds `Message::try_from`: delegate to the parser. -/
def Message.try_from (s : String) : Except ParseError Message :=
  parse_message s

/-- Embeds `Message::raw_message`: the owned line, returned verbatim. -/
def Message.raw_message (m : Message) : String :=
  m.message

/-- Embeds `Message::raw_command`: the slice of the command range. -/
def Message.raw_command (m : Message) : List Char :=
  sliceS m.message m.command

/-- Embeds `Message::raw_prefix`: the slice of the full origin span, or
`none` when the message has no origin section. -/
def Message.rawPfx (m : Message) : Option (List Char) :=
  match m.pfx with
  | some pr => some (sliceS m.message pr.rawPfx)
  | none => none

/-- Embeds `Message::prefix`: the decomposed (name, optional user,
optional host) slices, or `none` when the message has no origin
section. -/
def Message.prefixParts (m : Message) :
    Option (List Char × Option (List Char) × Option (List Char)) :=
  match m.pfx with
  | some pr =>
    some (sliceS m.message pr.pfx,
          Option.map (sliceS m.message) pr.user,
          Option.map (sliceS m.message) pr.host)
  | none => none

/-- Embeds `Message::raw_tags` as the sequence the returned `TagIter`
yields: one key/optional-value slice pair per stored tag range, and the
empty sequence when the tag section is absent. -/
def Message.raw_tags (m : Message) : List (List Char × Option (List Char)) :=
  match m.tags with
  | some ts => ts.map (fun t => (sliceS m.message t.1, Option.map (sliceS m.message) t.2))
  | none => []

/-- Embeds `Message::raw_args` as the sequence the returned
`ArgumentIter` yields: one slice per stored argument range, and the empty
sequence when the argument section is absent. -/
def Message.raw_args (m : Message) : List (List Char) :=
  match m.arguments with
  | some rs => rs.map (sliceS m.message)
  | none => []

/-- Embeds `Clone::clone` for `Message` (a field-by-field copy, as the
derived Rust implementation produces). -/
def Message.clone (m : Message) : Message :=
  { message := m.message, tags := m.tags, pfx := m.pfx,
    command := m.command, arguments := m.arguments }

/-- Modelled from the spec: a concrete shape implementing the `Command`
capability of section 4.3 (the `command` module is not among the provided
sources). A shape carries its expected command name and a partial reading
of the raw argument slices into typed fields. -/
structure CommandShape (α : Type) where
  name : List Char
  fromArgs : List (List Char) → Option α

/-- Modelled from the spec: `Command::try_match`, absence on a name or
field mismatch. -/
def CommandShape.try_match {α : Type} (sh : CommandShape α) (cmd : List Char)
    (args : List (List Char)) : Option α :=
  if cmd = sh.name then sh.fromArgs args else none

/-- Embeds `Message::command::<T>()`: feed the raw command and raw
arguments to the shape's matcher. -/
def Message.commandMatch {α : Type} (sh : CommandShape α) (m : Message) : Option α :=
  CommandShape.try_match sh (Message.raw_command m) (Message.raw_args m)

/-- Modelled from the spec: a concrete shape implementing the `Tag`
capability of section 4.3 (the `tag` module is not among the provided
sources). A shape carries its expected key and a partial reading of the
tag's optional value. -/
structure TagShape (α : Type) where
  key : List Char
  fromValue : Option (List Char) → Option α

/-- Modelled from the spec: `Tag::try_match`, absence when no tag entry
carries the expected key or its value does not read back. -/
def TagShape.try_match {α : Type} (sh : TagShape α)
    (tags : List (List Char × Option (List Char))) : Option α :=
  match tags.find? (fun t => decide (t.1 = sh.key)) with
  | some t => sh.fromValue t.2
  | none => none

/-- Embeds `Message::tag::<T>()`: feed the raw tag pairs to the shape's
matcher. -/
def Message.tagMatch {α : Type} (sh : TagShape α) (m : Message) : Option α :=
  TagShape.try_match sh (Message.raw_tags m)

/-- The parse of "PING :" (a bare trailing colon), used as C4's witness
input. -/
def msgPingColon : Message :=
  { message := "PING :", tags := none, pfx := none, command := ⟨0, 4⟩,
    arguments := some [⟨6, 6⟩] }

/-- The parse of "PING :tmi.twitch.tv", used as C5's witness input. -/
def msgPingTmi : Message :=
  { message := "PING :tmi.twitch.tv", tags := none, pfx := none, command := ⟨0, 4⟩,
    arguments := some [⟨6, 19⟩] }

/-- An arbitrary message value at which C6's no-partial-result clause is
instantiated. -/
def msgEmptyDummy : Message :=
  { message := "", tags := none, pfx := none, command := ⟨0, 0⟩, arguments := none }

/-- A message with a full origin section, used as C7's witness input. -/
def msgWithOrigin : Message :=
  { message := ":nick!user@host PING x", tags := none,
    pfx := some { rawPfx := ⟨1, 15⟩, pfx := ⟨1, 5⟩, user := some ⟨6, 10⟩,
                  host := some ⟨11, 15⟩ },
    command := ⟨16, 20⟩, arguments := some [⟨21, 22⟩] }

/-- A message with neither tag nor argument section, used as a witness
input for C8. -/
def msgNoSections : Message :=
  { message := "PING", tags := none, pfx := none, command := ⟨0, 4⟩, arguments := none }

/-- A message with one tag and two arguments, used as a witness input for
C8. -/
def msgWithSections : Message :=
  { message := "@a=b PRIVMSG #chan :hi", tags := some [(⟨1, 2⟩, some ⟨3, 4⟩)],
    pfx := none, command := ⟨5, 12⟩, arguments := some [⟨13, 18⟩, ⟨20, 22⟩] }

/-- A command shape expecting "PRIVMSG" with two arguments, used as C9's
witness shape. -/
def privmsgShape : CommandShape Nat :=
  { name := "PRIVMSG".data,
    fromArgs := fun args => if args.length = 2 then some 0 else none }

/-- A tag shape expecting the key "time", used as C9's witness shape. -/
def timeTagShape : TagShape Nat :=
  { key := "time".data, fromValue := fun _ => none }

/-- A message whose command is not "PRIVMSG" and which has no tags, used
as C9's witness input. -/
def msgPingBare : Message :=
  { message := "PING y", tags := none, pfx := none, command := ⟨0, 4⟩,
    arguments := some [⟨5, 6⟩] }

/-- A populated message value at which C10's clone clause is
instantiated. -/
def msgCloneSample : Message :=
  { message := "@a=b :n!u@h FOO x :y z", tags := some [(⟨1, 2⟩, some ⟨3, 4⟩)],
    pfx := some { rawPfx := ⟨6, 11⟩, pfx := ⟨6, 7⟩, user := some ⟨8, 9⟩,
                  host := some ⟨10, 11⟩ },
    command := ⟨12, 15⟩, arguments := some [⟨16, 17⟩, ⟨19, 22⟩] }

/-- When no character of `l` satisfies `p`, the scan runs off the end. -/
theorem findIdx'_eq_length (p : Char → Bool) (l : List Char)
    (h : ∀ c ∈ l, p c = false) : findIdx' p l = l.length := by
  induction l with
  | nil => rfl
  | cons c cs ih =>
    have hc : p c = false := h c (List.mem_cons_self c cs)
    simp [findIdx', hc, ih fun d hd => h d (List.mem_cons_of_mem c hd)]

/-- When no character of `l` satisfies `p` but `x` does, the scan stops
exactly at the appended `x`. -/
theorem findIdx'_append_last (p : Char → Bool) (l : List Char) (x : Char)
    (h : ∀ c ∈ l, p c = false) (hx : p x = true) :
    findIdx' p (l ++ [x]) = l.length := by
  induction l with
  | nil => simp [findIdx', hx]
  | cons c cs ih =>
    have hc : p c = false := h c (List.mem_cons_self c cs)
    simp [findIdx', hc, ih fun d hd => h d (List.mem_cons_of_mem c hd)]

/-- Reading a character through `drop` reads it at the shifted index. -/
theorem getD_drop (cs : List Char) (n m : Nat) (d : Char) :
    (cs.drop n).getD m d = cs.getD (n + m) d := by
  simp [List.getD_eq_getElem?_getD, List.getElem?_drop]

/-- A successful parse stores the input line verbatim and derives the
`arguments` field from the argument scan at the end of the command
range. -/
theorem parse_ok_shape (s : String) (m : Message) (h : parse_message s = .ok m) :
    m.message = s ∧
    m.arguments = (if (parseArgs s.data m.command.stop).isEmpty then none
                   else some (parseArgs s.data m.command.stop)) := by
  unfold parse_message at h
  dsimp only at h
  split at h
  · simp at h
  · split at h
    · simp at h
    · split at h
      · simp only [Except.ok.injEq] at h
        subst h
        exact ⟨rfl, rfl⟩
      · simp at h

/-- When only spaces and one final `:` remain after the command, the
argument scan yields exactly one empty range at the end of the line. -/
theorem parseArgs_trailing_colon (cs : List Char) (pos k : Nat)
    (h : cs.drop pos = List.replicate k ' ' ++ [':']) :
    parseArgs cs pos = [⟨cs.length, cs.length⟩] := by
  have hsub : cs.length - pos = k + 1 := by
    have hl := congrArg List.length h
    simpa using hl
  have hlen : cs.length = pos + k + 1 := by omega
  have hskip : findIdx' (fun c => !(c == ' ')) (cs.drop pos) = k := by
    rw [h]
    have := findIdx'_append_last (fun c => !(c == ' ')) (List.replicate k ' ') ':'
      (fun c hc => by simp [List.eq_of_mem_replicate hc]) (by simp)
    simpa using this
  have hget : cs.getD (pos + k) ' ' = ':' := by
    rw [← getD_drop cs pos k ' ', h]
    simp [List.getD_eq_getElem?_getD, List.getElem?_append_right, List.length_replicate]
  unfold parseArgs
  rw [show cs.length + 1 - pos = k + 1 + 1 by omega]
  show parseArgsF (k + 1 + 1) cs pos = _
  unfold parseArgsF
  dsimp only
  rw [show skipSpaces cs pos = pos + k by simp [skipSpaces, hskip]]
  rw [if_pos (show pos + k < cs.length by omega)]
  rw [if_pos hget]
  simp [hlen]

/-- C1: parsing ":nick!user@host PRIVMSG #chan :hello world" succeeds
with origin name "nick", user "user", host "host", raw command "PRIVMSG"
and exactly the arguments "#chan" and "hello world" in that order, the
trailing argument keeping its embedded space. -/
theorem claim1_privmsg_line_parse :
    (parse_message ":nick!user@host PRIVMSG #chan :hello world").map Message.prefixParts
      = .ok (some ("nick".data, some "user".data, some "host".data)) ∧
    (parse_message ":nick!user@host PRIVMSG #chan :hello world").map Message.raw_command
      = .ok "PRIVMSG".data ∧
    (parse_message ":nick!user@host PRIVMSG #chan :hello world").map Message.raw_args
      = .ok ["#chan".data, "hello world".data] :=
  ⟨rfl, rfl, rfl⟩

/-- C2: the empty line and a line holding only a tag section both fail to
parse, each with the `MissingCommand` error kind. -/
theorem claim2_missing_command :
    parse_message "" = .error ParseError.MissingCommand ∧
    parse_message "@time=123" = .error ParseError.MissingCommand :=
  ⟨rfl, rfl⟩

/-- C3: a tag entry without `=` gets an absent value while an entry whose
`=` is followed by nothing gets a present empty value — distinct states —
and parsing "@badge-info=;color=#FF0000 :tmi PRIVMSG #chan :hi" gives
badge-info the value some "" and color the value some "#FF0000". -/
theorem claim3_tag_value_absent_vs_empty :
    (∀ (cs : List Char) (r : Rng), (∀ c ∈ sliceL cs r, c ≠ '=') →
        splitEq cs r = (⟨r.start, r.stop⟩, none)) ∧
    (∀ (cs : List Char) (r : Rng) (key : List Char),
        sliceL cs r = key ++ ['='] → (∀ c ∈ key, c ≠ '=') →
        r.stop = r.start + key.length + 1 →
        splitEq cs r = (⟨r.start, r.start + key.length⟩, some ⟨r.stop, r.stop⟩) ∧
        sliceL cs ⟨r.stop, r.stop⟩ = []) ∧
    (parse_message "@badge-info=;color=#FF0000 :tmi PRIVMSG #chan :hi").map Message.raw_tags
      = .ok [("badge-info".data, some []), ("color".data, some "#FF0000".data)] := by
  refine ⟨fun cs r h => ?_, fun cs r key hslice hkey hstop => ?_, rfl⟩
  · have hfull : findIdx' (fun c => c == '=') (sliceL cs r) = (sliceL cs r).length :=
      findIdx'_eq_length _ _ fun c hc => by
        simpa using h c hc
    simp [splitEq, hfull]
  · have hidx : findIdx' (fun c => c == '=') (sliceL cs r) = key.length := by
      rw [hslice]
      exact findIdx'_append_last _ _ _
        (fun c hc => by simpa using hkey c hc) (by simp)
    have hlen : (sliceL cs r).length = key.length + 1 := by
      rw [hslice]; simp
    constructor
    · simp only [splitEq, hidx, hlen]
      have : key.length < key.length + 1 := Nat.lt_succ_self _
      simp [this, hstop]
    · simp [sliceL]

/-- Witness for C3 at concrete entries: "abc" has no `=` so its value is
absent, while "ab=" has an empty present value. -/
theorem claim3_witness :
    splitEq "abc".data ⟨0, 3⟩ = (⟨0, 3⟩, none) ∧
    splitEq "ab=".data ⟨0, 3⟩ = (⟨0, 2⟩, some ⟨3, 3⟩) ∧
    sliceL "ab=".data ⟨3, 3⟩ = [] :=
  ⟨claim3_tag_value_absent_vs_empty.1 "abc".data ⟨0, 3⟩ (by decide),
   claim3_tag_value_absent_vs_empty.2.1 "ab=".data ⟨0, 3⟩ "ab".data
     (by decide) (by decide) (by decide)⟩

/-- C4: a successful parse never stores an empty argument sequence — zero
argument tokens give `none` — while a line whose argument section is a
bare final `:` (spaces, then `:` at the end of the line) stores exactly
one argument whose text is empty. -/
theorem claim4_args_none_vs_empty_trailing :
    (∀ (s : String) (m : Message), parse_message s = .ok m → m.arguments ≠ some []) ∧
    (∀ (s : String) (m : Message) (k : Nat), parse_message s = .ok m →
      s.data.drop m.command.stop = List.replicate k ' ' ++ [':'] →
      m.arguments = some [⟨s.data.length, s.data.length⟩] ∧
      Message.raw_args m = [[]]) := by
  constructor
  · intro s m h
    obtain ⟨-, hargs⟩ := parse_ok_shape s m h
    by_cases he : (parseArgs s.data m.command.stop).isEmpty
    · simp [hargs, he]
    · have hne : parseArgs s.data m.command.stop ≠ [] := by
        simpa [List.isEmpty_iff] using he
      simp [hargs, he, hne]
  · intro s m k h hdrop
    obtain ⟨hmsg, hargs⟩ := parse_ok_shape s m h
    have hpa := parseArgs_trailing_colon s.data m.command.stop k hdrop
    have hargs' : m.arguments = some [⟨s.data.length, s.data.length⟩] := by
      rw [hargs, hpa]; rfl
    refine ⟨hargs', ?_⟩
    simp [Message.raw_args, hargs', hmsg, sliceS, sliceL]

/-- Witness for C4 at the line "PING :": one argument with empty text. -/
theorem claim4_witness :
    msgPingColon.arguments = some [⟨6, 6⟩] ∧ Message.raw_args msgPingColon = [[]] := by
  have := claim4_args_none_vs_empty_trailing.2 "PING :" msgPingColon 1 (by rfl) (by rfl)
  simpa using this

/-- C5: every successfully parsed line is returned verbatim by
`raw_message`, with no normalization or modification. -/
theorem claim5_raw_message_identity (s : String) (m : Message)
    (h : parse_message s = .ok m) : Message.raw_message m = s :=
  (parse_ok_shape s m h).1

/-- Witness for C5 at the line "PING :tmi.twitch.tv". -/
theorem claim5_witness : Message.raw_message msgPingTmi = "PING :tmi.twitch.tv" :=
  claim5_raw_message_identity "PING :tmi.twitch.tv" msgPingTmi (by rfl)

/-- C6: an empty tag key fails with `MalformedTags`, an empty origin name
with `MalformedPrefix`, a missing command with `MissingCommand`; the
three kinds are pairwise distinct, and a failing parse returns no
message. -/
theorem claim6_error_kinds :
    parse_message "@=v X" = .error ParseError.MalformedTags ∧
    parse_message ": X" = .error ParseError.MalformedPrefix ∧
    parse_message "" = .error ParseError.MissingCommand ∧
    (ParseError.MalformedTags ≠ ParseError.MalformedPrefix ∧
     ParseError.MalformedTags ≠ ParseError.MissingCommand ∧
     ParseError.MalformedPrefix ≠ ParseError.MissingCommand) ∧
    (∀ (s : String) (e : ParseError) (m : Message),
       parse_message s = .error e → parse_message s ≠ .ok m) := by
  refine ⟨rfl, rfl, rfl, ⟨by decide, by decide, by decide⟩, ?_⟩
  intro s e m he
  rw [he]
  simp

/-- Witness for C6: the failing empty line yields no message value. -/
theorem claim6_witness : parse_message "" ≠ .ok msgEmptyDummy :=
  claim6_error_kinds.2.2.2.2 "" ParseError.MissingCommand msgEmptyDummy (by rfl)

/-- C7: `prefix` returns absence exactly when `raw_prefix` does, and when
the origin section is present it returns the decomposed name and optional
user/host slices of that same stored section. -/
theorem claim7_prefix_accessors_agree (m : Message) :
    (Message.prefixParts m = none ↔ Message.rawPfx m = none) ∧
    (∀ pr, m.pfx = some pr →
      Message.prefixParts m = some (sliceS m.message pr.pfx,
        Option.map (sliceS m.message) pr.user,
        Option.map (sliceS m.message) pr.host) ∧
      Message.rawPfx m = some (sliceS m.message pr.rawPfx)) := by
  cases h : m.pfx with
  | none =>
    refine ⟨by simp [Message.prefixParts, Message.rawPfx, h], fun pr hpr => ?_⟩
    exact absurd hpr (by simp)
  | some pr =>
    refine ⟨by simp [Message.prefixParts, Message.rawPfx, h], fun pr' hpr' => ?_⟩
    have : pr = pr' := by injection hpr'
    subst this
    exact ⟨by simp [Message.prefixParts, h], by simp [Message.rawPfx, h]⟩

/-- Witness for C7 at a message carrying origin ":nick!user@host". -/
theorem claim7_witness :
    Message.prefixParts msgWithOrigin
      = some ("nick".data, some "user".data, some "host".data) ∧
    Message.rawPfx msgWithOrigin = some "nick!user@host".data := by
  have h := (claim7_prefix_accessors_agree msgWithOrigin).2
    ⟨⟨1, 15⟩, ⟨1, 5⟩, some ⟨6, 10⟩, some ⟨11, 15⟩⟩ (by rfl)
  exact ⟨h.1.trans (by rfl), h.2.trans (by rfl)⟩

/-- C8: `raw_tags` and `raw_args` always return a sequence; an absent
section yields the empty sequence rather than an absence value, and a
present section yields exactly one item per stored range. -/
theorem claim8_iterators_flatten_absence (m : Message) :
    (m.tags = none → Message.raw_tags m = []) ∧
    (m.arguments = none → Message.raw_args m = []) ∧
    (∀ ts, m.tags = some ts → (Message.raw_tags m).length = ts.length) ∧
    (∀ rs, m.arguments = some rs → (Message.raw_args m).length = rs.length) :=
  ⟨fun h => by simp [Message.raw_tags, h],
   fun h => by simp [Message.raw_args, h],
   fun ts h => by simp [Message.raw_tags, h],
   fun rs h => by simp [Message.raw_args, h]⟩

/-- Witness for C8: absent sections iterate as empty, present sections
iterate once per range. -/
theorem claim8_witness :
    Message.raw_tags msgNoSections = [] ∧
    Message.raw_args msgNoSections = [] ∧
    (Message.raw_tags msgWithSections).length = 1 ∧
    (Message.raw_args msgWithSections).length = 2 :=
  ⟨(claim8_iterators_flatten_absence msgNoSections).1 (by rfl),
   (claim8_iterators_flatten_absence msgNoSections).2.1 (by rfl),
   ((claim8_iterators_flatten_absence msgWithSections).2.2.1
       [(⟨1, 2⟩, some ⟨3, 4⟩)] (by rfl)).trans (by rfl),
   ((claim8_iterators_flatten_absence msgWithSections).2.2.2
       [⟨13, 18⟩, ⟨20, 22⟩] (by rfl)).trans (by rfl)⟩

/-- C9: typed matching is total and signals mismatch by absence — a
command shape whose name differs from the raw command, or whose field
reading fails, yields `none`, and a tag shape whose key is on no tag, or
whose value reading fails, yields `none`. -/
theorem claim9_typed_match_absence :
    (∀ (α : Type) (sh : CommandShape α) (m : Message),
       (Message.raw_command m ≠ sh.name → Message.commandMatch sh m = none) ∧
       (sh.fromArgs (Message.raw_args m) = none → Message.commandMatch sh m = none)) ∧
    (∀ (α : Type) (sh : TagShape α) (m : Message),
       ((∀ t ∈ Message.raw_tags m, t.1 ≠ sh.key) → Message.tagMatch sh m = none) ∧
       (∀ t, (Message.raw_tags m).find? (fun u => decide (u.1 = sh.key)) = some t →
          sh.fromValue t.2 = none → Message.tagMatch sh m = none)) := by
  constructor
  · intro α sh m
    constructor
    · intro hne
      simp [Message.commandMatch, CommandShape.try_match, hne]
    · intro hfa
      by_cases hc : Message.raw_command m = sh.name
      · simp [Message.commandMatch, CommandShape.try_match, hc, hfa]
      · simp [Message.commandMatch, CommandShape.try_match, hc]
  · intro α sh m
    constructor
    · intro hall
      have hfind : (Message.raw_tags m).find? (fun u => decide (u.1 = sh.key)) = none := by
        rw [List.find?_eq_none]
        intro t ht
        simpa using hall t ht
      simp [Message.tagMatch, TagShape.try_match, hfind]
    · intro t hfind hval
      simp [Message.tagMatch, TagShape.try_match, hfind, hval]

/-- Witness for C9: a PRIVMSG shape against a PING message, and a time
tag shape against a tagless message, both yield absence. -/
theorem claim9_witness :
    Message.commandMatch privmsgShape msgPingBare = none ∧
    Message.tagMatch timeTagShape msgPingBare = none :=
  ⟨(claim9_typed_match_absence.1 Nat privmsgShape msgPingBare).1 (by decide),
   (claim9_typed_match_absence.2 Nat timeTagShape msgPingBare).1 (by decide)⟩

/-- C10: parsing is deterministic — equal input lines parse to equal
results, with `Message` equality the derived structural equality — and
cloning a message returns a message equal to it. -/
theorem claim10_deterministic_structural_clone :
    (∀ s t : String, s = t → parse_message s = parse_message t) ∧
    (∀ m : Message, Message.clone m = m) :=
  ⟨fun s t h => by rw [h], fun m => rfl⟩

/-- Witness for C10 at the line "PING x" and a fully populated message. -/
theorem claim10_witness :
    parse_message "PING x" = parse_message "PING x" ∧
    Message.clone msgCloneSample = msgCloneSample :=
  ⟨claim10_deterministic_structural_clone.1 "PING x" "PING x" (by rfl),
   claim10_deterministic_structural_clone.2 msgCloneSample⟩

end Pircolate
